import Mathlib

/-!
Shallow embedding of the quantops backtesting core
(src/quantops/backtesting/backtester.py and src/quantops/utils/indicators.py).

Prices, quantities and cash are modelled as exact rationals (ℚ); timestamps as
integers. Python dicts keyed by symbol strings are modelled as association
lists in insertion order, with update-in-place / append-if-new semantics
matching dict assignment. Pandas float semantics (NaN / infinity), which
matter only for the RSI indicator, are modelled explicitly by the `FVal` type.
-/

namespace Quantops

/-- A symbol key, as the Python code uses strings such as "BTC/USDT". -/
abbrev Symbol := String

/-- One OHLCV price bar (a row of the per-symbol dataframe). -/
structure Bar where
  timestamp : ℤ
  open_price : ℚ
  high : ℚ
  low : ℚ
  close : ℚ
  volume : ℚ
deriving DecidableEq, Repr

/-- The synthetic ticker built by `_prepare_market_snapshot` from the latest
bar at or before the cursor: last=close, bid=low, ask=high, volume=volume. -/
structure Ticker where
  last : ℚ
  bid : ℚ
  ask : ℚ
  volume : ℚ
deriving DecidableEq, Repr

/-- One snapshot entry per symbol: the ticker plus the trailing ohlcv window. -/
structure SnapshotEntry where
  ticker : Ticker
  ohlcv : List Bar
deriving DecidableEq, Repr

/-- A market snapshot: symbol-keyed mapping, in the insertion order of the
underlying historical-data dict. -/
abbrev Snapshot := List (Symbol × SnapshotEntry)

/-- The historical dataset: one ordered bar list per symbol. -/
abbrev Historical := List (Symbol × List Bar)

/-- Lookup in an association list (Python `d[k]` / `k in d`). -/
def alookup {α : Type} (d : List (Symbol × α)) (k : Symbol) : Option α :=
  match d with
  | [] => none
  | (k₀, v₀) :: rest => if k₀ = k then some v₀ else alookup rest k

/-- Python dict assignment `d[k] = v`: overwrite in place, else append. -/
def aset (d : List (Symbol × ℚ)) (k : Symbol) (v : ℚ) : List (Symbol × ℚ) :=
  match d with
  | [] => [(k, v)]
  | (k₀, v₀) :: rest => if k₀ = k then (k, v) :: rest else (k₀, v₀) :: aset rest k v

/-- Python `del d[k]`: remove the entry for `k`. -/
def adel (d : List (Symbol × ℚ)) (k : Symbol) : List (Symbol × ℚ) :=
  match d with
  | [] => []
  | (k₀, v₀) :: rest => if k₀ = k then rest else (k₀, v₀) :: adel rest k

/-- A trading signal: `{action, symbol, amount}` as consumed by
`_execute_backtest_signal` (action is a free string; only "buy"/"sell" act). -/
structure Signal where
  action : String
  symbol : Symbol
  amount : ℚ
deriving DecidableEq, Repr

/-- A trade record (`self.trades` entries). `cash_flow` is the "cost" key for
a buy and the "proceeds" key for a sell. -/
structure Trade where
  timestamp : ℤ
  action : String
  symbol : Symbol
  amount : ℚ
  price : ℚ
  cash_flow : ℚ
deriving DecidableEq, Repr

/-- The mutable state of a `Backtester` instance. -/
structure BState where
  capital : ℚ
  positions : List (Symbol × ℚ)
  trades : List Trade
  equity_curve : List ℚ
  timestamps : List ℤ
deriving DecidableEq, Repr

/-- `Backtester.reset`: reinitialize all mutable state; the equity curve is
seeded with the initial capital. -/
def reset_state (initial_capital : ℚ) : BState :=
  { capital := initial_capital
    positions := []
    trades := []
    equity_curve := [initial_capital]
    timestamps := [] }

/-- `Backtester._prepare_market_snapshot`: for each symbol keep the bars at or
before the cursor timestamp; symbols with no such bar are omitted; the ticker
is derived from the latest kept bar. -/
def prepare_market_snapshot (historical : Historical) (ts : ℤ) : Snapshot :=
  historical.filterMap (fun sd =>
    let current := sd.2.filter (fun b => b.timestamp ≤ ts)
    match current.getLast? with
    | none => none
    | some latest =>
        some (sd.1,
          { ticker :=
              { last := latest.close
                bid := latest.low
                ask := latest.high
                volume := latest.volume }
            ohlcv := current }))

/-- `Backtester._execute_backtest_signal`: convert a signal into a simulated
fill, mutating capital / positions / trades. The Python `self.timestamps[-1]`
read is modelled by `getLast?.getD 0` (in `run` the list is never empty at
this point). -/
def execute_backtest_signal (commission slippage : ℚ) (st : BState)
    (signal : Signal) (market_data : Snapshot) : BState :=
  match alookup market_data signal.symbol with
  | none => st
  | some entry =>
    let price := entry.ticker.last
    if signal.action = "buy" then
      let execution_price := price * (1 + slippage)
      let cost := execution_price * signal.amount
      let commission_cost := cost * commission
      let total_cost := cost + commission_cost
      if total_cost ≤ st.capital then
        { st with
            capital := st.capital - total_cost
            positions := aset st.positions signal.symbol
              ((alookup st.positions signal.symbol).getD 0 + signal.amount)
            trades := st.trades ++
              [{ timestamp := st.timestamps.getLast?.getD 0
                 action := "buy"
                 symbol := signal.symbol
                 amount := signal.amount
                 price := execution_price
                 cash_flow := total_cost }] }
      else st
    else if signal.action = "sell" then
      let execution_price := price * (1 - slippage)
      match alookup st.positions signal.symbol with
      | none => st
      | some held =>
        if held ≥ signal.amount then
          let proceeds := execution_price * signal.amount
          let commission_cost := proceeds * commission
          let net_proceeds := proceeds - commission_cost
          let new_positions := aset st.positions signal.symbol (held - signal.amount)
          { st with
              capital := st.capital + net_proceeds
              positions :=
                if held - signal.amount = 0 then adel new_positions signal.symbol
                else new_positions
              trades := st.trades ++
                [{ timestamp := st.timestamps.getLast?.getD 0
                   action := "sell"
                   symbol := signal.symbol
                   amount := signal.amount
                   price := execution_price
                   cash_flow := net_proceeds }] }
        else st
    else st

/-- `Backtester._calculate_portfolio_value`: cash plus, for each held position
whose symbol appears in the snapshot, quantity times the snapshot last price. -/
def calculate_portfolio_value (st : BState) (market_data : Snapshot) : ℚ :=
  st.positions.foldl
    (fun total p =>
      match alookup market_data p.1 with
      | some entry => total + entry.ticker.last * p.2
      | none => total)
    st.capital

/-- A strategy behaviour: the signal (if any) it emits at a given tick index
for a given snapshot. This covers every deterministic
`strategy.generate_signal` over a fixed dataset. -/
abbrev Strategy := ℕ → Snapshot → Option Signal

/-- One iteration of the `run` loop: record the timestamp, build the snapshot,
execute the strategy signal if present, append the portfolio value. -/
def run_tick (commission slippage : ℚ) (strategy : Strategy)
    (historical : Historical) (st : BState) (irow : ℕ × Bar) : BState :=
  let st₁ := { st with timestamps := st.timestamps ++ [irow.2.timestamp] }
  let snapshot := prepare_market_snapshot historical irow.2.timestamp
  let st₂ :=
    match strategy irow.1 snapshot with
    | some sig => execute_backtest_signal commission slippage st₁ sig snapshot
    | none => st₁
  { st₂ with
      equity_curve := st₂.equity_curve ++ [calculate_portfolio_value st₂ snapshot] }

/-- The optional start/end date filter applied to the primary dataframe. -/
def date_filter (df : List Bar) (start_date end_date : Option ℤ) : List Bar :=
  let df₁ :=
    match start_date with
    | some s => df.filter (fun b => s ≤ b.timestamp)
    | none => df
  match end_date with
  | some e => df₁.filter (fun b => b.timestamp ≤ e)
  | none => df₁

/-- `Backtester.run`: reset, pick the first symbol's dataframe as the clock,
filter it by the optional date range, and fold the per-tick loop over it.
(Python raises on an empty dataset dict; that case is mapped to the reset
state.) -/
def run_backtest (initial_capital commission slippage : ℚ) (strategy : Strategy)
    (historical : Historical) (start_date end_date : Option ℤ) : BState :=
  match historical with
  | [] => reset_state initial_capital
  | (_, df) :: _ =>
      (date_filter df start_date end_date).enum.foldl
        (run_tick commission slippage strategy historical)
        (reset_state initial_capital)

/-- `returns = np.diff(equity) / equity[:-1]` from `_calculate_metrics`. -/
def backtest_returns (equity : List ℚ) : List ℚ :=
  List.zipWith (fun prev cur => (cur - prev) / prev) equity equity.tail

/-- Arithmetic mean (`np.mean`); 0 on the empty list. -/
def mean_q (xs : List ℚ) : ℚ := xs.sum / xs.length

/-- Population variance (`np.std` squared). -/
def variance_q (xs : List ℚ) : ℚ := mean_q (xs.map (fun x => (x - mean_q xs) ^ 2))

/-- `volatility = np.std(returns) * np.sqrt(252) if len(returns) > 0 else 0`. -/
noncomputable def annualized_volatility (rets : List ℚ) : ℝ :=
  if 0 < rets.length then Real.sqrt ((variance_q rets : ℚ) : ℝ) * Real.sqrt 252 else 0

/-- `sharpe_ratio = (np.mean(returns) * 252 / volatility) if volatility > 0 else 0`. -/
noncomputable def sharpe_ratio (rets : List ℚ) : ℝ :=
  if 0 < annualized_volatility rets then
    ((mean_q rets : ℚ) : ℝ) * 252 / annualized_volatility rets
  else 0

/-- Helper for `np.maximum.accumulate`: running maximum continuing from `m`. -/
def cummax_from (m : ℚ) : List ℚ → List ℚ
  | [] => []
  | x :: xs => max m x :: cummax_from (max m x) xs

/-- `np.maximum.accumulate`: `out[0] = x[0]`, `out[i] = max(out[i-1], x[i])`. -/
def cummax : List ℚ → List ℚ
  | [] => []
  | x :: xs => x :: cummax_from x xs

/-- `drawdown = (equity_array - cumulative_max) / cumulative_max`, elementwise. -/
def drawdown_series (equity : List ℚ) : List ℚ :=
  List.zipWith (fun e m => (e - m) / m) equity (cummax equity)

/-- `max_drawdown = np.min(drawdown)`. `np.min` raises on an empty array; the
equity curve always has at least the seed entry, so the empty case (mapped to
0) is unreachable from `run`. -/
def max_drawdown (equity : List ℚ) : ℚ :=
  match drawdown_series equity with
  | [] => 0
  | d :: ds => ds.foldl min d

/-- `max_drawdown_pct = max_drawdown * 100`. -/
def max_drawdown_pct (equity : List ℚ) : ℚ := max_drawdown equity * 100

/-- Spec-language running maximum: the largest of `equity[0..i]`. -/
def running_max_at (equity : List ℚ) (i : ℕ) : ℚ :=
  (equity.take (i + 1)).foldl max (equity.getD 0 0)

/-- Spec-language max drawdown, following the spec's words:
`min_i ((equity[i] - runningMax(equity)[i]) / runningMax(equity)[i])`. -/
def max_drawdown_spec (equity : List ℚ) : ℚ :=
  match (List.range equity.length).map
      (fun i => (equity.getD i 0 - running_max_at equity i) / running_max_at equity i) with
  | [] => 0
  | d :: ds => ds.foldl min d

/-- A pandas float value as it occurs in the RSI pipeline: a finite rational,
one of the two infinities, or NaN. -/
inductive FVal where
  | fin : ℚ → FVal
  | inf : FVal
  | ninf : FVal
  | nan : FVal
deriving DecidableEq, Repr

namespace FVal

/-- IEEE negation. -/
def neg : FVal → FVal
  | fin q => fin (-q)
  | inf => ninf
  | ninf => inf
  | nan => nan

/-- IEEE addition (NaN propagates; opposite infinities give NaN). -/
def add : FVal → FVal → FVal
  | nan, _ => nan
  | _, nan => nan
  | inf, ninf => nan
  | ninf, inf => nan
  | inf, _ => inf
  | _, inf => inf
  | ninf, _ => ninf
  | _, ninf => ninf
  | fin a, fin b => fin (a + b)

/-- IEEE subtraction. -/
def sub (a b : FVal) : FVal := add a (neg b)

/-- IEEE division, with rational zero playing the role of +0 (ℚ has no signed
zero; only nonnegative values reach the divisions in the RSI pipeline). -/
def div : FVal → FVal → FVal
  | nan, _ => nan
  | _, nan => nan
  | fin a, fin b =>
      if b ≠ 0 then fin (a / b)
      else if a = 0 then nan
      else if 0 < a then inf
      else ninf
  | fin _, inf => fin 0
  | fin _, ninf => fin 0
  | inf, fin b => if 0 ≤ b then inf else ninf
  | ninf, fin b => if 0 ≤ b then ninf else inf
  | _, _ => nan

end FVal

/-- `data.diff()`: NaN at index 0, then successive differences. -/
def series_diff (xs : List ℚ) : List FVal :=
  match xs with
  | [] => []
  | _ :: _ => FVal.nan :: List.zipWith (fun prev cur => FVal.fin (cur - prev)) xs xs.tail

/-- `delta.where(delta > 0, 0)`: keep the value where it compares greater than
zero (false for NaN), else 0. -/
def gain_part : FVal → FVal
  | .fin q => if 0 < q then .fin q else .fin 0
  | .inf => .inf
  | _ => .fin 0

/-- `-delta.where(delta < 0, 0)`: the negated value where it compares less
than zero (false for NaN), else 0. -/
def loss_part : FVal → FVal
  | .fin q => if q < 0 then .fin (-q) else .fin 0
  | .ninf => .inf
  | _ => .fin 0

/-- Extract a finite value. -/
def FVal.as_fin : FVal → Option ℚ
  | .fin q => some q
  | _ => none

/-- The finite values of a window, or `none` if any entry is non-finite. -/
def all_fin : List FVal → Option (List ℚ)
  | [] => some []
  | v :: rest =>
      match v.as_fin, all_fin rest with
      | some q, some qs => some (q :: qs)
      | _, _ => none

/-- `series.rolling(window=period).mean()`: NaN until a full window of
non-missing observations is available, then the window mean. (Pandas rejects
`window=0`; that case is mapped to NaN. Infinite window entries cannot occur
in the RSI pipeline, where rolling is applied to finite gain/loss series, and
are mapped to NaN here.) -/
def rolling_mean (period : ℕ) (xs : List FVal) : List FVal :=
  (List.range xs.length).map (fun i =>
    if i + 1 < period ∨ period = 0 then FVal.nan
    else
      match all_fin ((xs.take (i + 1)).drop (i + 1 - period)) with
      | some qs => FVal.fin (qs.sum / period)
      | none => FVal.nan)

/-- The `gain` series of `calculate_rsi`. -/
def rsi_avg_gain (data : List ℚ) (period : ℕ) : List FVal :=
  rolling_mean period ((series_diff data).map gain_part)

/-- The `loss` series of `calculate_rsi`. -/
def rsi_avg_loss (data : List ℚ) (period : ℕ) : List FVal :=
  rolling_mean period ((series_diff data).map loss_part)

/-- `calculate_rsi` (src/quantops/utils/indicators.py): `rs = gain / loss`,
`rsi = 100 - (100 / (1 + rs))`, elementwise with pandas float semantics. -/
def calculate_rsi (data : List ℚ) (period : ℕ) : List FVal :=
  (List.zipWith FVal.div (rsi_avg_gain data period) (rsi_avg_loss data period)).map
    (fun rs => FVal.sub (.fin 100) (FVal.div (.fin 100) (FVal.add (.fin 1) rs)))

/-! ### Helper lemmas -/

lemma execute_equity_curve (c s : ℚ) (st : BState) (sig : Signal) (m : Snapshot) :
    (execute_backtest_signal c s st sig m).equity_curve = st.equity_curve := by
  unfold execute_backtest_signal
  rcases alookup m sig.symbol with _ | entry
  · rfl
  · dsimp only
    split
    · split <;> rfl
    · split
      · rcases alookup st.positions sig.symbol with _ | held
        · rfl
        · dsimp only
          split <;> rfl
      · rfl

lemma run_tick_equity_curve (c s : ℚ) (strat : Strategy) (hist : Historical)
    (st : BState) (r : ℕ × Bar) :
    ∃ v, (run_tick c s strat hist st r).equity_curve = st.equity_curve ++ [v] := by
  unfold run_tick
  dsimp only
  rcases strat r.1 (prepare_market_snapshot hist r.2.timestamp) with _ | sig
  · exact ⟨_, rfl⟩
  · exact ⟨_, by rw [execute_equity_curve]⟩

lemma foldl_run_tick_equity_curve (c s : ℚ) (strat : Strategy) (hist : Historical)
    (rows : List (ℕ × Bar)) :
    ∀ st : BState, ∃ t : List ℚ,
      (rows.foldl (run_tick c s strat hist) st).equity_curve = st.equity_curve ++ t ∧
      t.length = rows.length := by
  induction rows with
  | nil => exact fun st => ⟨[], by simp⟩
  | cons r rows ih =>
      intro st
      obtain ⟨v, hv⟩ := run_tick_equity_curve c s strat hist st r
      obtain ⟨t, ht, hlen⟩ := ih (run_tick c s strat hist st r)
      exact ⟨v :: t, by simp [List.foldl_cons, ht, hv], by simp [hlen]⟩

/-! ### C1 -/

/-- Claim C1: for every run over a primary bar sequence of N bars (after the
optional date filter), the recorded equity curve has length N + 1 and its
entry at index 0 is the initial capital seeded by reset. -/
theorem equity_curve_length_and_seed (ic c s : ℚ) (strat : Strategy)
    (psym : Symbol) (df : List Bar) (rest : Historical) (sd ed : Option ℤ) :
    (run_backtest ic c s strat ((psym, df) :: rest) sd ed).equity_curve.length
      = (date_filter df sd ed).length + 1 ∧
    (run_backtest ic c s strat ((psym, df) :: rest) sd ed).equity_curve.head?
      = some ic := by
  obtain ⟨t, ht, hlen⟩ :=
    foldl_run_tick_equity_curve c s strat ((psym, df) :: rest)
      (date_filter df sd ed).enum (reset_state ic)
  have hrun : (run_backtest ic c s strat ((psym, df) :: rest) sd ed).equity_curve
      = ic :: t := by
    show ((date_filter df sd ed).enum.foldl
      (run_tick c s strat ((psym, df) :: rest)) (reset_state ic)).equity_curve = ic :: t
    rw [ht]; rfl
  constructor
  · rw [hrun]
    simp [hlen, Nat.add_comm]
  · rw [hrun]
    rfl

/-! ### C2 -/

/-- Claim C2: with well-formed parameters (rates in [0,1], nonnegative signal
amount and snapshot prices), a buy fill executes only when its total cost,
`executionPrice*amount + executionPrice*amount*commissionRate`, is at most the
available cash, and no fill (buy or sell) ever drives nonnegative cash
negative. -/
theorem cash_never_negative (c s : ℚ) (st : BState) (sig : Signal) (m : Snapshot)
    (hcap : 0 ≤ st.capital) (hc0 : 0 ≤ c) (hc1 : c ≤ 1) (hs0 : 0 ≤ s) (hs1 : s ≤ 1)
    (hamt : 0 ≤ sig.amount)
    (hprice : ∀ e, alookup m sig.symbol = some e → 0 ≤ e.ticker.last) :
    0 ≤ (execute_backtest_signal c s st sig m).capital ∧
    (∀ e, alookup m sig.symbol = some e → sig.action = "buy" →
      st.capital <
        e.ticker.last * (1 + s) * sig.amount + e.ticker.last * (1 + s) * sig.amount * c →
      execute_backtest_signal c s st sig m = st) := by
  constructor
  · unfold execute_backtest_signal
    rcases hm : alookup m sig.symbol with _ | entry
    · exact hcap
    · have hp : 0 ≤ entry.ticker.last := hprice entry hm
      dsimp only
      split
      · split
        · next hcost => dsimp only; linarith
        · exact hcap
      · split
        · rcases alookup st.positions sig.symbol with _ | held
          · exact hcap
          · dsimp only
            split
            · dsimp only
              have hnet : 0 ≤ entry.ticker.last * (1 - s) * sig.amount
                  - entry.ticker.last * (1 - s) * sig.amount * c := by
                have h1 : 0 ≤ entry.ticker.last * (1 - s) * sig.amount :=
                  mul_nonneg (mul_nonneg hp (by linarith)) hamt
                nlinarith
              linarith
            · exact hcap
        · exact hcap
  · intro e hm hbuy hover
    unfold execute_backtest_signal
    rw [hm]
    dsimp only
    rw [if_pos hbuy, if_neg (by linarith)]

/-- Witness for C2 at concrete inputs. -/
theorem cash_never_negative_witness :
    0 ≤ (execute_backtest_signal (1/1000) (5/10000)
        (reset_state 100) ⟨"buy", "A", 1⟩
        [("A", ⟨⟨50, 49, 51, 10⟩, []⟩)]).capital := by
  refine (cash_never_negative (1/1000) (5/10000) (reset_state 100) ⟨"buy", "A", 1⟩
    [("A", ⟨⟨50, 49, 51, 10⟩, []⟩)] (by norm_num [reset_state]) (by norm_num)
    (by norm_num) (by norm_num) (by norm_num) (by norm_num) ?_).1
  intro e he
  simp only [alookup] at he
  split at he
  · cases he; norm_num
  · cases he

/-! ### C3 -/

/-- Claim C3: with initial capital 100000, commission 0.001 and slippage
0.0005, a single buy of 0.1 units at reference price 50000 executes at price
50025 with cost 5002.5, commission 5.0025 and total cost 5007.5025, leaving
cash 94992.4975 and a position of exactly 0.1 in the bought symbol. -/
theorem example_buy_fill :
    (50000 : ℚ) * (1 + 5/10000) = 50025 ∧
    (50025 : ℚ) * (1/10) = 5002.5 ∧
    (5002.5 : ℚ) * (1/1000) = 5.0025 ∧
    (5002.5 : ℚ) + 5.0025 = 5007.5025 ∧
    (execute_backtest_signal (1/1000) (5/10000) (reset_state 100000)
        ⟨"buy", "BTC/USDT", 1/10⟩
        [("BTC/USDT", ⟨⟨50000, 49900, 50100, 10⟩, []⟩)]).capital = 94992.4975 ∧
    (execute_backtest_signal (1/1000) (5/10000) (reset_state 100000)
        ⟨"buy", "BTC/USDT", 1/10⟩
        [("BTC/USDT", ⟨⟨50000, 49900, 50100, 10⟩, []⟩)]).positions
      = [("BTC/USDT", 1/10)] ∧
    (execute_backtest_signal (1/1000) (5/10000) (reset_state 100000)
        ⟨"buy", "BTC/USDT", 1/10⟩
        [("BTC/USDT", ⟨⟨50000, 49900, 50100, 10⟩, []⟩)]).trades
      = [⟨0, "buy", "BTC/USDT", 1/10, 50025, 5007.5025⟩] := by
  norm_num [execute_backtest_signal, reset_state, alookup, aset]

/-! ### C4 -/

/-- The positions-map invariant: every symbol present has quantity > 0. -/
def positions_positive (d : List (Symbol × ℚ)) : Prop := ∀ p ∈ d, 0 < p.2

lemma alookup_mem {α : Type} {d : List (Symbol × α)} {k : Symbol} {v : α}
    (h : alookup d k = some v) : (k, v) ∈ d := by
  induction d with
  | nil => simp [alookup] at h
  | cons p rest ih =>
      rw [alookup] at h
      split at h
      · next heq => cases h; exact heq ▸ List.mem_cons_self _ _
      · exact List.mem_cons_of_mem _ (ih h)

lemma mem_aset {d : List (Symbol × ℚ)} {k : Symbol} {v : ℚ} {p : Symbol × ℚ}
    (h : p ∈ aset d k v) : p.2 = v ∨ p ∈ d := by
  induction d with
  | nil => simp [aset] at h; exact Or.inl (by rw [h])
  | cons q rest ih =>
      rw [aset] at h
      split at h
      · rcases List.mem_cons.1 h with h | h
        · exact Or.inl (by rw [h])
        · exact Or.inr (List.mem_cons_of_mem _ h)
      · rcases List.mem_cons.1 h with h | h
        · exact Or.inr (h ▸ List.mem_cons_self _ _)
        · rcases ih h with h | h
          · exact Or.inl h
          · exact Or.inr (List.mem_cons_of_mem _ h)

lemma mem_adel_aset {d : List (Symbol × ℚ)} {k : Symbol} {v : ℚ} {p : Symbol × ℚ}
    (h : p ∈ adel (aset d k v) k) : p ∈ d := by
  induction d with
  | nil => simp [aset, adel] at h
  | cons q rest ih =>
      rw [aset] at h
      split at h
      · next heq =>
          rw [adel, if_pos rfl] at h
          exact List.mem_cons_of_mem _ h
      · next hne =>
          rw [adel, if_neg hne] at h
          rcases List.mem_cons.1 h with h | h
          · exact h ▸ List.mem_cons_self _ _
          · exact List.mem_cons_of_mem _ (ih h)

/-- Claim C4: the positions map holds only strictly positive quantities after
reset and after every executed signal with positive amount; a sell fill never
takes a position below zero, and an entry that reaches exactly zero is removed
immediately. -/
theorem positions_invariant (ic c s : ℚ) (st : BState) (sig : Signal) (m : Snapshot)
    (hpos : positions_positive st.positions) (hamt : 0 < sig.amount) :
    positions_positive (reset_state ic).positions ∧
    positions_positive (execute_backtest_signal c s st sig m).positions := by
  refine ⟨by intro p hp; simp [reset_state] at hp, ?_⟩
  unfold execute_backtest_signal
  rcases hm : alookup m sig.symbol with _ | entry
  · exact hpos
  · dsimp only
    split
    · split
      · dsimp only
        intro p hp
        rcases mem_aset hp with h | h
        · rw [h]
          rcases hq : alookup st.positions sig.symbol with _ | q
          · simpa [hq] using hamt
          · have := hpos _ (alookup_mem hq)
            simp only [hq, Option.getD_some]
            linarith [this]
        · exact hpos _ h
      · exact hpos
    · split
      · rcases hq : alookup st.positions sig.symbol with _ | held
        · exact hpos
        · dsimp only
          split
          · next hge =>
              dsimp only
              split
              · intro p hp
                exact hpos _ (mem_adel_aset hp)
              · next hzero =>
                  intro p hp
                  rcases mem_aset hp with h | h
                  · rw [h]
                    rcases lt_or_eq_of_le (by linarith [hge] : (0:ℚ) ≤ held - sig.amount)
                      with hlt | heq
                    · exact hlt
                    · exact absurd heq.symm hzero
                  · exact hpos _ h
          · exact hpos
      · exact hpos

/-- Witness for C4 at concrete inputs: a full sell closes the position and the
entry is removed. -/
theorem positions_invariant_witness :
    positions_positive [("A", (1 : ℚ))] ∧ (0:ℚ) < 1 ∧
    positions_positive (reset_state 5).positions ∧
    positions_positive (execute_backtest_signal (1/1000) (5/10000)
      { capital := 7, positions := [("A", 1)], trades := [],
        equity_curve := [7], timestamps := [3] }
      ⟨"sell", "A", 1⟩ [("A", ⟨⟨50, 49, 51, 10⟩, []⟩)]).positions := by
  have h := positions_invariant 5 (1/1000) (5/10000)
    { capital := 7, positions := [("A", 1)], trades := [],
      equity_curve := [7], timestamps := [3] }
    ⟨"sell", "A", 1⟩ [("A", ⟨⟨50, 49, 51, 10⟩, []⟩)]
    (by intro p hp; simp at hp; rw [hp]; norm_num) (by norm_num)
  exact ⟨by intro p hp; simp at hp; rw [hp]; norm_num, by norm_num, h.1, h.2⟩

/-! ### C5 -/

/-- Claim C5: a sell signal whose symbol has no held position, or held
quantity below the signal amount, is dropped with the whole state (cash,
positions, trade log) exactly unchanged. -/
theorem sell_insufficient_position_dropped (c s : ℚ) (st : BState) (sig : Signal)
    (m : Snapshot) (hsell : sig.action = "sell")
    (hheld : ∀ q, alookup st.positions sig.symbol = some q → q < sig.amount) :
    execute_backtest_signal c s st sig m = st := by
  unfold execute_backtest_signal
  rcases hm : alookup m sig.symbol with _ | entry
  · rfl
  · dsimp only
    rw [hsell]
    rw [if_neg (by decide), if_pos rfl]
    rcases hq : alookup st.positions sig.symbol with _ | held
    · rfl
    · dsimp only
      rw [if_neg (by simpa using not_le.2 (hheld held hq))]

/-- Witness for C5 at concrete inputs: selling with an empty positions map
leaves the state untouched. -/
theorem sell_insufficient_position_dropped_witness :
    (⟨"sell", "A", 1⟩ : Signal).action = "sell" ∧
    execute_backtest_signal (1/1000) (5/10000)
        { capital := 7, positions := [], trades := [],
          equity_curve := [7], timestamps := [3] }
        ⟨"sell", "A", 1⟩ [("A", ⟨⟨50, 49, 51, 10⟩, []⟩)]
      = { capital := 7, positions := [], trades := [],
          equity_curve := [7], timestamps := [3] } := by
  refine ⟨rfl, sell_insufficient_position_dropped (1/1000) (5/10000) _ _ _ rfl ?_⟩
  intro q hq
  simp [alookup] at hq

/-! ### C6 -/

/-- Claim C6: every snapshot entry contains only bars at or before the cursor,
its ticker is derived from the most recent such bar (last=close, bid=low,
ask=high, volume=volume), and a symbol with no bar at or before the cursor is
omitted from the snapshot. -/
theorem snapshot_no_lookahead (historical : Historical) (ts : ℤ) :
    (∀ p ∈ prepare_market_snapshot historical ts,
      (∀ b ∈ p.2.ohlcv, b.timestamp ≤ ts) ∧
      ∃ df, (p.1, df) ∈ historical ∧
        p.2.ohlcv = df.filter (fun b => b.timestamp ≤ ts) ∧
        ∃ latest, (df.filter (fun b => b.timestamp ≤ ts)).getLast? = some latest ∧
          p.2.ticker =
            { last := latest.close, bid := latest.low
              ask := latest.high, volume := latest.volume }) ∧
    (∀ sym : Symbol,
      (∀ df, (sym, df) ∈ historical → df.filter (fun b => b.timestamp ≤ ts) = []) →
      ∀ e, (sym, e) ∉ prepare_market_snapshot historical ts) := by
  constructor
  · intro p hp
    rw [prepare_market_snapshot, List.mem_filterMap] at hp
    obtain ⟨sd, hsd, hf⟩ := hp
    dsimp only at hf
    rcases hl : (sd.2.filter (fun b => b.timestamp ≤ ts)).getLast? with _ | latest
    · rw [hl] at hf; cases hf
    · rw [hl] at hf
      cases hf
      refine ⟨?_, sd.2, hsd, rfl, latest, hl, rfl⟩
      intro b hb
      have := List.mem_filter.1 hb
      simpa using this.2
  · intro sym hall e he
    rw [prepare_market_snapshot, List.mem_filterMap] at he
    obtain ⟨sd, hsd, hf⟩ := he
    dsimp only at hf
    rcases hl : (sd.2.filter (fun b => b.timestamp ≤ ts)).getLast? with _ | latest
    · rw [hl] at hf; cases hf
    · rw [hl] at hf
      cases hf
      rw [hall sd.2 hsd] at hl
      cases hl

/-! ### C7 -/

lemma series_diff_length (xs : List ℚ) : (series_diff xs).length = xs.length := by
  cases xs with
  | nil => rfl
  | cons x rest => simp [series_diff]

lemma rolling_mean_length (p : ℕ) (xs : List FVal) :
    (rolling_mean p xs).length = xs.length := by
  simp [rolling_mean]

lemma rsi_avg_gain_length (data : List ℚ) (p : ℕ) :
    (rsi_avg_gain data p).length = data.length := by
  simp [rsi_avg_gain, rolling_mean_length, series_diff_length]

lemma rsi_avg_loss_length (data : List ℚ) (p : ℕ) :
    (rsi_avg_loss data p).length = data.length := by
  simp [rsi_avg_loss, rolling_mean_length, series_diff_length]

lemma getD_map_fval (f : FVal → FVal) (l : List FVal) (i : ℕ) (hi : i < l.length)
    (d d₀ : FVal) : (l.map f).getD i d = f (l.getD i d₀) := by
  rw [List.getD_eq_getElem _ _ (by simpa using hi), List.getD_eq_getElem _ _ hi,
    List.getElem_map]

lemma getD_zipWith_fval (f : FVal → FVal → FVal) (a b : List FVal) (i : ℕ)
    (ha : i < a.length) (hb : i < b.length) (d da db : FVal) :
    (List.zipWith f a b).getD i d = f (a.getD i da) (b.getD i db) := by
  rw [List.getD_eq_getElem _ _ (by simp [List.length_zipWith]; omega),
    List.getD_eq_getElem _ _ ha, List.getD_eq_getElem _ _ hb, List.getElem_zipWith]

/-- Counterexample to claim C7: over the flat series [1, 1, 1] with period 2,
position 2 has trailing average loss zero with enough history accumulated, yet
`calculate_rsi` returns NaN (0/0 is not guarded), not 100. -/
theorem rsi_zero_loss_not_always_100 :
    (rsi_avg_loss [1, 1, 1] 2).getD 2 FVal.nan = FVal.fin 0 ∧
    (calculate_rsi [1, 1, 1] 2).getD 2 FVal.nan = FVal.nan ∧
    FVal.nan ≠ FVal.fin 100 := by
  refine ⟨?_, ?_, by decide⟩ <;>
    norm_num [calculate_rsi, rsi_avg_gain, rsi_avg_loss, rolling_mean, series_diff,
      gain_part, loss_part, FVal.as_fin, all_fin, FVal.div, FVal.add, FVal.sub,
      FVal.neg, List.range, List.range.loop]

/-- Claim C7 as amended: whenever the trailing average loss is zero with
enough history accumulated AND the trailing average gain is strictly positive,
the RSI value is exactly 100 (through the float limit 100 - 100/(1+inf)); when
the average gain is also zero, the result is NaN, not 100. -/
theorem rsi_zero_loss_positive_gain_100 (data : List ℚ) (period i : ℕ) (g : ℚ)
    (hl : (rsi_avg_loss data period).getD i FVal.nan = FVal.fin 0)
    (hg : (rsi_avg_gain data period).getD i FVal.nan = FVal.fin g)
    (hgpos : 0 < g) :
    (calculate_rsi data period).getD i FVal.nan = FVal.fin 100 := by
  have hi : i < data.length := by
    by_contra hge
    rw [List.getD_eq_default _ _ (by rw [rsi_avg_loss_length]; omega)] at hl
    cases hl
  have hig : i < (rsi_avg_gain data period).length := by rw [rsi_avg_gain_length]; omega
  have hil : i < (rsi_avg_loss data period).length := by rw [rsi_avg_loss_length]; omega
  rw [calculate_rsi,
    getD_map_fval _ _ i (by simp [List.length_zipWith]; omega) _ FVal.nan,
    getD_zipWith_fval _ _ _ i hig hil _ FVal.nan FVal.nan, hl, hg]
  have hne : ¬(g = 0) := by linarith
  simp [FVal.div, FVal.add, FVal.sub, FVal.neg, hne, hgpos]

/-- Witness for the amended C7: the rising series [1, 2, 3] with period 2 has
average loss 0 and average gain 1/2 at position 1, and RSI 100 there. -/
theorem rsi_zero_loss_positive_gain_100_witness :
    (rsi_avg_loss [1, 2, 3] 2).getD 1 FVal.nan = FVal.fin 0 ∧
    (rsi_avg_gain [1, 2, 3] 2).getD 1 FVal.nan = FVal.fin (1/2) ∧
    (0 : ℚ) < 1/2 ∧
    (calculate_rsi [1, 2, 3] 2).getD 1 FVal.nan = FVal.fin 100 := by
  have hl : (rsi_avg_loss [1, 2, 3] 2).getD 1 FVal.nan = FVal.fin 0 := by
    norm_num [rsi_avg_loss, rolling_mean, series_diff, loss_part, FVal.as_fin,
      all_fin, List.range, List.range.loop]
  have hg : (rsi_avg_gain [1, 2, 3] 2).getD 1 FVal.nan = FVal.fin (1/2) := by
    norm_num [rsi_avg_gain, rolling_mean, series_diff, gain_part, FVal.as_fin,
      all_fin, List.range, List.range.loop]
  exact ⟨hl, hg, by norm_num,
    rsi_zero_loss_positive_gain_100 [1, 2, 3] 2 1 (1/2) hl hg (by norm_num)⟩

/-! ### C8 -/

lemma cummax_from_length (m : ℚ) (xs : List ℚ) :
    (cummax_from m xs).length = xs.length := by
  induction xs generalizing m with
  | nil => rfl
  | cons x xs ih => simp [cummax_from, ih]

lemma cummax_length (xs : List ℚ) : (cummax xs).length = xs.length := by
  cases xs with
  | nil => rfl
  | cons x xs => simp [cummax, cummax_from_length]

lemma cummax_from_getD (xs : List ℚ) :
    ∀ (m : ℚ) (i : ℕ), i < xs.length →
      (cummax_from m xs).getD i 0 = (xs.take (i + 1)).foldl max m := by
  induction xs with
  | nil => intro m i hi; cases hi
  | cons x xs ih =>
      intro m i hi
      cases i with
      | zero => simp [cummax_from]
      | succ i =>
          rw [cummax_from]
          simp only [List.getD_cons_succ, List.take_succ_cons, List.foldl_cons]
          exact ih (max m x) i (by simpa using hi)

lemma cummax_getD (e : List ℚ) (i : ℕ) (hi : i < e.length) :
    (cummax e).getD i 0 = running_max_at e i := by
  cases e with
  | nil => cases hi
  | cons x xs =>
      rw [running_max_at]
      cases i with
      | zero => simp [cummax]
      | succ i =>
          rw [cummax]
          simp only [List.getD_cons_succ, List.getD_cons_zero, List.take_succ_cons,
            List.foldl_cons, max_self]
          exact cummax_from_getD xs x i (by simpa using hi)

lemma drawdown_series_eq_spec (e : List ℚ) :
    drawdown_series e = (List.range e.length).map
      (fun i => (e.getD i 0 - running_max_at e i) / running_max_at e i) := by
  apply List.ext_getElem
  · simp [drawdown_series, List.length_zipWith, cummax_length]
  · intro i h₁ h₂
    have hi : i < e.length := by
      simpa [drawdown_series, List.length_zipWith, cummax_length] using h₁
    simp only [drawdown_series, List.getElem_zipWith, List.getElem_map,
      List.getElem_range]
    rw [← List.getD_eq_getElem e 0 hi,
      ← List.getD_eq_getElem (cummax e) 0 (by rw [cummax_length]; exact hi),
      cummax_getD e i hi]

lemma foldl_min_le (ds : List ℚ) : ∀ d : ℚ, ds.foldl min d ≤ d := by
  induction ds with
  | nil => intro d; exact le_refl d
  | cons y ys ih =>
      intro d
      calc ys.foldl min (min d y) ≤ min d y := ih (min d y)
        _ ≤ d := min_le_left d y

/-- Claim C8: for every nonempty equity curve, the computed max drawdown
equals the spec formula `min_i ((equity[i] - runningMax[i]) / runningMax[i])`,
is non-positive, and the percentage variant is 100 times it; the curve
[100000, 110000, 90000, 95000] yields (90000 - 110000) / 110000. -/
theorem max_drawdown_properties (equity : List ℚ) (h : equity ≠ []) :
    max_drawdown equity = max_drawdown_spec equity ∧
    max_drawdown equity ≤ 0 ∧
    max_drawdown_pct equity = max_drawdown equity * 100 ∧
    max_drawdown [100000, 110000, 90000, 95000] = (90000 - 110000) / 110000 := by
  refine ⟨?_, ?_, rfl, ?_⟩
  · rw [max_drawdown, max_drawdown_spec, drawdown_series_eq_spec]
  · obtain ⟨x, xs, rfl⟩ := List.exists_cons_of_ne_nil h
    have hdd : drawdown_series (x :: xs)
        = (x - x) / x :: List.zipWith (fun e m => (e - m) / m) xs (cummax_from x xs) := by
      simp only [drawdown_series, cummax]
      rfl
    rw [max_drawdown, hdd]
    dsimp only
    calc (List.zipWith (fun e m => (e - m) / m) xs (cummax_from x xs)).foldl min
          ((x - x) / x)
        ≤ (x - x) / x := foldl_min_le _ _
      _ = 0 := by rw [sub_self, zero_div]
  · norm_num [max_drawdown, drawdown_series, cummax, cummax_from, max_def, min_def]

/-- Witness for C8 at the spec's example curve. -/
theorem max_drawdown_properties_witness :
    ([100000, 110000, 90000, 95000] : List ℚ) ≠ [] ∧
    max_drawdown [100000, 110000, 90000, 95000]
      = max_drawdown_spec [100000, 110000, 90000, 95000] ∧
    max_drawdown [100000, 110000, 90000, 95000] ≤ 0 := by
  have h := max_drawdown_properties [100000, 110000, 90000, 95000]
    (by simp)
  exact ⟨by simp, h.1, h.2.1⟩

/-! ### C9 -/

/-- Claim C9: a run whose primary instrument has zero bars yields the
degenerate result: equity curve of length 1 holding just the initial capital,
zero trades, and zero-valued volatility, Sharpe ratio and max drawdown, with
no division error. -/
theorem empty_dataset_degenerate (ic c s : ℚ) (strat : Strategy) (psym : Symbol)
    (rest : Historical) (sd ed : Option ℤ) :
    (run_backtest ic c s strat ((psym, []) :: rest) sd ed).equity_curve = [ic] ∧
    (run_backtest ic c s strat ((psym, []) :: rest) sd ed).trades = [] ∧
    backtest_returns (run_backtest ic c s strat ((psym, []) :: rest) sd ed).equity_curve
      = [] ∧
    annualized_volatility
      (backtest_returns
        (run_backtest ic c s strat ((psym, []) :: rest) sd ed).equity_curve) = 0 ∧
    sharpe_ratio
      (backtest_returns
        (run_backtest ic c s strat ((psym, []) :: rest) sd ed).equity_curve) = 0 ∧
    max_drawdown (run_backtest ic c s strat ((psym, []) :: rest) sd ed).equity_curve
      = 0 := by
  have hres : run_backtest ic c s strat ((psym, []) :: rest) sd ed = reset_state ic := by
    show (date_filter [] sd ed).enum.foldl (run_tick c s strat ((psym, []) :: rest))
      (reset_state ic) = reset_state ic
    rcases sd with _ | s₀ <;> rcases ed with _ | e₀ <;> rfl
  rw [hres]
  refine ⟨rfl, rfl, rfl, ?_, ?_, ?_⟩
  · show annualized_volatility (backtest_returns [ic]) = 0
    simp [backtest_returns, annualized_volatility]
  · show sharpe_ratio (backtest_returns [ic]) = 0
    simp [backtest_returns, sharpe_ratio, annualized_volatility]
  · show max_drawdown [ic] = 0
    simp only [max_drawdown, drawdown_series, cummax, cummax_from,
      List.zipWith_cons_cons, List.zipWith_nil_left, List.zipWith_nil_right,
      List.foldl_nil, sub_self, zero_div]

/-! ### C10 -/

lemma pv_foldl (m : Snapshot) (d : List (Symbol × ℚ)) :
    ∀ acc : ℚ,
      d.foldl
        (fun total p =>
          match alookup m p.1 with
          | some entry => total + entry.ticker.last * p.2
          | none => total) acc
      = acc + (d.map (fun p =>
          match alookup m p.1 with
          | some e => e.ticker.last * p.2
          | none => 0)).sum := by
  induction d with
  | nil => intro acc; simp
  | cons p rest ih =>
      intro acc
      rw [List.foldl_cons, List.map_cons, List.sum_cons]
      rcases hp : alookup m p.1 with _ | e
      · simp only [hp]
        rw [ih acc]
        ring
      · simp only [hp]
        rw [ih (acc + e.ticker.last * p.2)]
        ring

/-- Claim C10: the portfolio value is cash plus the sum over held positions of
quantity times the snapshot last price for symbols present in the snapshot,
with absent symbols contributing exactly zero. -/
theorem portfolio_value_eq_cash_plus_marked_positions (st : BState) (m : Snapshot) :
    calculate_portfolio_value st m =
      st.capital + (st.positions.map (fun p =>
        match alookup m p.1 with
        | some e => e.ticker.last * p.2
        | none => 0)).sum := by
  rw [calculate_portfolio_value, pv_foldl]

end Quantops
